import Mathlib

/-!
Shallow embedding of `PagedDuplexStream`
(src/src/commands/interface-manager/PagedDuplexStream.ts).

The TypeScript class holds a string accumulator (`buffer`), an array of
pages whose last entry is the open "current" page, and an optional
last-committed document node.  Mutating methods are embedded as pure
functions from a stream state to a new stream state (paired with the
method's return value or thrown error where applicable); the thrown
`TypeError` of `commit` is reified as `CommitError.oversizeCommit`.
-/

namespace PagedDuplex

/-- The state of a `PagedDuplexStream`, parametrised by the opaque
`DocumentNode` type.  Mirrors the class fields: `sizeLimit`
(constructor parameter, default 20000), `buffer` (initially the empty
string), `pages` (initially `['']`), and `lastCommittedNode`
(initially `undefined`). -/
structure PagedDuplexStream (Node : Type) where
  sizeLimit : Nat
  buffer : String
  pages : List String
  lastCommittedNode : Option Node
deriving Repr, DecidableEq

/-- The default `sizeLimit` of the constructor. -/
def defaultSizeLimit : Nat := 20000

/-- A freshly constructed stream: `buffer = ''`, `pages = ['']`,
no committed node. -/
def mkPagedDuplexStream (Node : Type) (sizeLimit : Nat) :
    PagedDuplexStream Node :=
  ⟨sizeLimit, "", [""], none⟩

variable {Node : Type}

/-- `get currentPage(): string` — `this.pages.at(this.pages.length - 1)!`,
the last element of `pages` (the page array is never empty in any
reachable state). -/
def currentPage (s : PagedDuplexStream Node) : String :=
  s.pages.getLastD ""

/-- `appendToCurrentPage(string)` — replaces the last page with itself
concatenated with `string`. -/
def appendToCurrentPage (s : PagedDuplexStream Node) (str : String) :
    PagedDuplexStream Node :=
  { s with pages := s.pages.dropLast ++ [currentPage s ++ str] }

/-- `writeString(string)` — appends to the accumulator. -/
def writeString (s : PagedDuplexStream Node) (str : String) :
    PagedDuplexStream Node :=
  { s with buffer := s.buffer ++ str }

/-- `getPosition()` — length of the accumulator. -/
def getPosition (s : PagedDuplexStream Node) : Nat :=
  s.buffer.length

/-- `isPageAndBufferOverSize()` —
`(this.currentPage.length + this.buffer.length) > this.sizeLimit`. -/
def isPageAndBufferOverSize (s : PagedDuplexStream Node) : Bool :=
  decide ((currentPage s).length + s.buffer.length > s.sizeLimit)

/-- `ensureNewPage()` — pushes a fresh empty page only when the current
page is non-empty. -/
def ensureNewPage (s : PagedDuplexStream Node) : PagedDuplexStream Node :=
  if (currentPage s).length ≠ 0 then
    { s with pages := s.pages ++ [""] }
  else s

/-- The single error kind of the component: the `TypeError` thrown by
`commit` ("Commit is too large, could not write a page for this
commit"). -/
inductive CommitError where
  | oversizeCommit
deriving Repr, DecidableEq

/-- The tail of `commit` shared by both successful paths: append the
accumulator to the current page, clear the accumulator, record the
node. -/
def commitAppend (s : PagedDuplexStream Node) (node : Node) :
    PagedDuplexStream Node :=
  { appendToCurrentPage s s.buffer with
      buffer := ""
      lastCommittedNode := some node }

/-- `commit(node)` — returns the state after the call together with the
error thrown, if any.  The throw happens before any mutation, so on the
error path the state is the state at entry. -/
def commit (s : PagedDuplexStream Node) (node : Node) :
    PagedDuplexStream Node × Option CommitError :=
  if isPageAndBufferOverSize s then
    if (currentPage s).length = 0 ∧ s.buffer.length > s.sizeLimit then
      (s, some CommitError.oversizeCommit)
    else
      (commitAppend (ensureNewPage s) node, none)
  else
    (commitAppend s node, none)

/-- `getLastCommittedNode()`. -/
def getLastCommittedNode (s : PagedDuplexStream Node) : Option Node :=
  s.lastCommittedNode

/-- `peekPage()` — `undefined` when fewer than two pages exist,
otherwise the first page (`pages.at(0)`), without mutation. -/
def peekPage (s : PagedDuplexStream Node) : Option String :=
  if s.pages.length < 2 then none
  else s.pages.head?

/-- `readPage()` — `undefined` when fewer than two pages exist,
otherwise dequeues and returns the first page (`pages.shift()`). -/
def readPage (s : PagedDuplexStream Node) :
    Option String × PagedDuplexStream Node :=
  if s.pages.length < 2 then (none, s)
  else (s.pages.head?, { s with pages := s.pages.tail })

/-- The public mutating/draining operations a caller can issue, used to
quantify over call sequences. -/
inductive Op (Node : Type) where
  | writeString (str : String)
  | commit (node : Node)
  | ensureNewPage
  | peekPage
  | readPage
deriving Repr, DecidableEq

/-- One operation applied to a state: the new state, the page returned
by `readPage` (if the operation was a successful `readPage`), and the
error thrown (if the operation was a failing `commit`). -/
def applyOp (s : PagedDuplexStream Node) (op : Op Node) :
    PagedDuplexStream Node × Option String × Option CommitError :=
  match op with
  | Op.writeString str => (writeString s str, none, none)
  | Op.commit n => ((commit s n).1, none, (commit s n).2)
  | Op.ensureNewPage => (ensureNewPage s, none, none)
  | Op.peekPage => (s, none, none)
  | Op.readPage => ((readPage s).2, (readPage s).1, none)

/-- Result of running a sequence of operations: the final state, the
pages drained by `readPage` calls in order, and whether the run was
aborted by a thrown error. -/
structure RunResult (Node : Type) where
  state : PagedDuplexStream Node
  drained : List String
  aborted : Bool
deriving Repr, DecidableEq

/-- Run a sequence of operations from a state.  A thrown error aborts
the run (the exception propagates to the caller), leaving the state as
it was at the moment of the throw. -/
def runOps (s : PagedDuplexStream Node) : List (Op Node) → RunResult Node
  | [] => ⟨s, [], false⟩
  | op :: ops =>
    if ((applyOp s op).2.2).isSome then ⟨s, [], true⟩
    else
      ⟨(runOps (applyOp s op).1 ops).state,
       ((applyOp s op).2.1).toList ++ (runOps (applyOp s op).1 ops).drained,
       (runOps (applyOp s op).1 ops).aborted⟩

/-- The side condition of the spec's §8 properties: at every `commit`
in the sequence, the accumulated (uncommitted) content fits within
`sizeLimit`. -/
def commitsFit (s : PagedDuplexStream Node) : List (Op Node) → Bool
  | [] => true
  | op :: ops =>
    (match op with
     | Op.commit _ => decide (s.buffer.length ≤ s.sizeLimit)
     | _ => true)
    && commitsFit (applyOp s op).1 ops

/-- Concatenation of all strings passed to `writeString` in a sequence
of operations. -/
def writtenText : List (Op Node) → String
  | [] => ""
  | Op.writeString str :: ops => str ++ writtenText ops
  | _ :: ops => writtenText ops

/-- Concatenation of a list of pages, in order. -/
def concatAll : List String → String
  | [] => ""
  | p :: ps => p ++ concatAll ps

/-- No two adjacent pages are both empty. -/
def noTwoConsecutiveEmpty : List String → Bool
  | [] => true
  | [_] => true
  | a :: b :: rest =>
    (!(a == "" && b == "")) && noTwoConsecutiveEmpty (b :: rest)

/-! ### Basic frame and shape lemmas -/

theorem sizeLimit_ensureNewPage (s : PagedDuplexStream Node) :
    (ensureNewPage s).sizeLimit = s.sizeLimit := by
  unfold ensureNewPage; split <;> rfl

theorem buffer_ensureNewPage (s : PagedDuplexStream Node) :
    (ensureNewPage s).buffer = s.buffer := by
  unfold ensureNewPage; split <;> rfl

theorem sizeLimit_commitAppend (s : PagedDuplexStream Node) (n : Node) :
    (commitAppend s n).sizeLimit = s.sizeLimit := rfl

theorem buffer_commitAppend (s : PagedDuplexStream Node) (n : Node) :
    (commitAppend s n).buffer = "" := rfl

theorem pages_commitAppend (s : PagedDuplexStream Node) (n : Node) :
    (commitAppend s n).pages = s.pages.dropLast ++ [currentPage s ++ s.buffer] := rfl

theorem node_commitAppend (s : PagedDuplexStream Node) (n : Node) :
    (commitAppend s n).lastCommittedNode = some n := rfl

theorem sizeLimit_commit (s : PagedDuplexStream Node) (n : Node) :
    (commit s n).1.sizeLimit = s.sizeLimit := by
  unfold commit
  split
  · split
    · rfl
    · rw [sizeLimit_commitAppend, sizeLimit_ensureNewPage]
  · rfl

theorem sizeLimit_applyOp (s : PagedDuplexStream Node) (op : Op Node) :
    (applyOp s op).1.sizeLimit = s.sizeLimit := by
  cases op with
  | writeString str => rfl
  | commit n => exact sizeLimit_commit s n
  | ensureNewPage => exact sizeLimit_ensureNewPage s
  | peekPage => rfl
  | readPage =>
    simp only [applyOp]
    unfold readPage
    split <;> rfl

/-- When the current page is non-empty, the page list decomposes as its
closed pages followed by the current page. -/
theorem pages_decomp (s : PagedDuplexStream Node)
    (h : (currentPage s).length ≠ 0) :
    s.pages = s.pages.dropLast ++ [currentPage s] := by
  rcases List.eq_nil_or_concat s.pages with hnil | ⟨l, x, hx⟩
  · exfalso
    apply h
    rw [currentPage, hnil]
    rfl
  · rw [List.concat_eq_append] at hx
    rw [hx, List.dropLast_concat, currentPage, hx, List.getLastD_concat]

theorem currentPage_concat (l : List String) (x : String)
    (s : PagedDuplexStream Node) (h : s.pages = l ++ [x]) :
    currentPage s = x := by
  rw [currentPage, h, List.getLastD_concat]

/-- If the accumulator fits within the size limit, `commit` cannot
throw. -/
theorem commit_no_error (s : PagedDuplexStream Node) (n : Node)
    (hbuf : s.buffer.length ≤ s.sizeLimit) :
    (commit s n).2 = none := by
  unfold commit
  split
  · split
    · rename_i herr
      exact absurd herr.2 (Nat.not_lt.mpr hbuf)
    · rfl
  · rfl

/-! ### Concatenation lemmas -/

theorem concatAll_append (a b : List String) :
    concatAll (a ++ b) = concatAll a ++ concatAll b := by
  induction a with
  | nil => rfl
  | cons x xs ih => simp [concatAll, ih, String.append_assoc]

theorem concatAll_concat (l : List String) (x : String) :
    concatAll (l ++ [x]) = concatAll l ++ x := by
  rw [concatAll_append]
  simp [concatAll, String.append_empty]

theorem concatAll_current_append (l : List String) (b : String) :
    concatAll (l.dropLast ++ [l.getLastD "" ++ b]) = concatAll l ++ b := by
  rcases List.eq_nil_or_concat l with rfl | ⟨l', x, hx⟩
  · simp [concatAll, String.append_empty]
  · rw [List.concat_eq_append] at hx
    subst hx
    rw [List.dropLast_concat, List.getLastD_concat, concatAll_concat,
      concatAll_concat, String.append_assoc]

/-! ### The shape of a successful commit -/

/-- A successful `commit` clears the accumulator, records the node, and
either appends the accumulator to the existing last page (no rollover;
this is the case in which the combined length was within the limit) or
rolls over, keeping all existing pages and adding the accumulator as a
fresh final page. -/
theorem commit_success_shape (s : PagedDuplexStream Node) (n : Node)
    (h : (commit s n).2 = none) :
    (commit s n).1.buffer = "" ∧
    (commit s n).1.lastCommittedNode = some n ∧
    (((currentPage s).length + s.buffer.length ≤ s.sizeLimit ∧
        (commit s n).1.pages
          = s.pages.dropLast ++ [currentPage s ++ s.buffer]) ∨
     ((currentPage s).length ≠ 0 ∧
        (commit s n).1.pages = s.pages ++ [s.buffer])) := by
  by_cases hov : isPageAndBufferOverSize s = true
  · by_cases herr :
        (currentPage s).length = 0 ∧ s.buffer.length > s.sizeLimit
    · exfalso
      unfold commit at h
      rw [if_pos hov, if_pos herr] at h
      exact absurd h (by simp)
    · have hc : commit s n = (commitAppend (ensureNewPage s) n, none) := by
        unfold commit
        rw [if_pos hov, if_neg herr]
      have hcur : (currentPage s).length ≠ 0 := by
        intro hcur
        unfold isPageAndBufferOverSize at hov
        simp only [decide_eq_true_eq] at hov
        rw [hcur] at hov
        exact herr ⟨hcur, by omega⟩
      refine ⟨by rw [hc]; rfl, by rw [hc]; rfl, Or.inr ⟨hcur, ?_⟩⟩
      rw [hc]
      show (commitAppend (ensureNewPage s) n).pages = s.pages ++ [s.buffer]
      rw [pages_commitAppend]
      unfold ensureNewPage
      rw [if_pos hcur]
      have hc0 : currentPage { s with pages := s.pages ++ [""] } = "" := by
        rw [currentPage]
        show (s.pages ++ [""]).getLastD "" = ""
        rw [List.getLastD_concat]
      simp only [hc0]
      show (s.pages ++ [""]).dropLast ++ ["" ++ s.buffer] = s.pages ++ [s.buffer]
      rw [List.dropLast_concat]
      rfl
  · have hc : commit s n = (commitAppend s n, none) := by
      unfold commit
      rw [if_neg hov]
    unfold isPageAndBufferOverSize at hov
    simp only [decide_eq_true_eq, Nat.not_lt] at hov
    exact ⟨by rw [hc]; rfl, by rw [hc]; rfl,
      Or.inl ⟨hov, by rw [hc]; exact pages_commitAppend s n⟩⟩

/-- A successful commit keeps every page within the limit, provided the
accumulator itself fits. -/
theorem commit_pages_fit (s : PagedDuplexStream Node) (n : Node)
    (hbuf : s.buffer.length ≤ s.sizeLimit)
    (hfit : ∀ p ∈ s.pages, p.length ≤ s.sizeLimit) :
    ∀ p ∈ (commit s n).1.pages, p.length ≤ s.sizeLimit := by
  have hok := commit_no_error s n hbuf
  rcases (commit_success_shape s n hok).2.2 with ⟨hle, hpg⟩ | ⟨_, hpg⟩
  · intro p hp
    rw [hpg] at hp
    rcases List.mem_append.mp hp with hL | hR
    · exact hfit p (List.dropLast_subset s.pages hL)
    · have hpeq : p = currentPage s ++ s.buffer := by simpa using hR
      subst hpeq
      rw [String.length_append]
      exact hle
  · intro p hp
    rw [hpg] at hp
    rcases List.mem_append.mp hp with hL | hR
    · exact hfit p hL
    · have hpeq : p = s.buffer := by simpa using hR
      subst hpeq
      exact hbuf

/-- A successful commit never makes a closed (non-last) page empty. -/
theorem commit_closed (s : PagedDuplexStream Node) (n : Node)
    (hok : (commit s n).2 = none)
    (hne : ∀ p ∈ s.pages.dropLast, p ≠ "") :
    ∀ p ∈ (commit s n).1.pages.dropLast, p ≠ "" := by
  rcases (commit_success_shape s n hok).2.2 with ⟨_, hpg⟩ | ⟨hcur, hpg⟩
  · rw [hpg, List.dropLast_concat]
    exact hne
  · rw [hpg, List.dropLast_concat]
    intro p hp
    rw [pages_decomp s hcur] at hp
    rcases List.mem_append.mp hp with hL | hR
    · exact hne p hL
    · have hpeq : p = currentPage s := by simpa using hR
      subst hpeq
      intro hemp
      apply hcur
      rw [hemp]
      rfl

/-- A successful commit moves the accumulator into the pages: the total
text held (pages then accumulator) is preserved. -/
theorem commit_conserve (s : PagedDuplexStream Node) (n : Node)
    (hok : (commit s n).2 = none) :
    concatAll (commit s n).1.pages ++ (commit s n).1.buffer
      = concatAll s.pages ++ s.buffer := by
  rcases commit_success_shape s n hok with ⟨hb0, -, ⟨-, hpg⟩ | ⟨-, hpg⟩⟩
  · rw [hb0, hpg, String.append_empty]
    exact concatAll_current_append s.pages s.buffer
  · rw [hb0, hpg, String.append_empty, concatAll_concat]

/-! ### Per-operation step lemmas -/

theorem ensureNewPage_cases (s : PagedDuplexStream Node) :
    ensureNewPage s = s ∨
    ((currentPage s).length ≠ 0 ∧
      (ensureNewPage s).pages = s.pages ++ [""]) := by
  unfold ensureNewPage
  split
  · right
    exact ⟨‹_›, rfl⟩
  · left
    rfl

theorem readPage_short (s : PagedDuplexStream Node)
    (h : s.pages.length < 2) : readPage s = (none, s) := by
  unfold readPage
  rw [if_pos h]

theorem readPage_long (s : PagedDuplexStream Node)
    (h : ¬s.pages.length < 2) :
    readPage s = (s.pages.head?, { s with pages := s.pages.tail }) := by
  unfold readPage
  rw [if_neg h]

theorem pages_two (l : List String) (h : ¬l.length < 2) :
    ∃ a b t, l = a :: b :: t :=
  match l with
  | [] => absurd (by simp) h
  | [a] => absurd (by simp) h
  | a :: b :: t => ⟨a, b, t, rfl⟩

theorem applyOp_no_error (s : PagedDuplexStream Node) (op : Op Node)
    (hbuf : ∀ n, op = Op.commit n → s.buffer.length ≤ s.sizeLimit) :
    (applyOp s op).2.2 = none := by
  cases op with
  | writeString str => rfl
  | commit n => simpa [applyOp] using commit_no_error s n (hbuf n rfl)
  | ensureNewPage => rfl
  | peekPage => rfl
  | readPage => rfl

theorem commitsFit_head (s : PagedDuplexStream Node) (op : Op Node)
    (ops : List (Op Node)) (hc : commitsFit s (op :: ops) = true) :
    ∀ n, op = Op.commit n → s.buffer.length ≤ s.sizeLimit := by
  intro n hn
  subst hn
  unfold commitsFit at hc
  simp only [Bool.and_eq_true, decide_eq_true_eq] at hc
  exact hc.1

theorem commitsFit_tail (s : PagedDuplexStream Node) (op : Op Node)
    (ops : List (Op Node)) (hc : commitsFit s (op :: ops) = true) :
    commitsFit (applyOp s op).1 ops = true := by
  unfold commitsFit at hc
  simp only [Bool.and_eq_true] at hc
  exact hc.2

theorem runOps_cons_ok (s : PagedDuplexStream Node) (op : Op Node)
    (ops : List (Op Node)) (hok : (applyOp s op).2.2 = none) :
    runOps s (op :: ops)
      = ⟨(runOps (applyOp s op).1 ops).state,
         ((applyOp s op).2.1).toList ++ (runOps (applyOp s op).1 ops).drained,
         (runOps (applyOp s op).1 ops).aborted⟩ := by
  conv_lhs => rw [runOps]
  rw [hok]
  rfl

/-! ### Run-level invariant: all pages within the size limit -/

theorem applyOp_pages_fit (s : PagedDuplexStream Node) (op : Op Node)
    (hbuf : ∀ n, op = Op.commit n → s.buffer.length ≤ s.sizeLimit)
    (hfit : ∀ p ∈ s.pages, p.length ≤ s.sizeLimit) :
    ∀ p ∈ (applyOp s op).1.pages, p.length ≤ s.sizeLimit := by
  cases op with
  | writeString str => exact hfit
  | commit n =>
    simpa [applyOp] using commit_pages_fit s n (hbuf n rfl) hfit
  | ensureNewPage =>
    rcases ensureNewPage_cases s with he | ⟨-, he⟩
    · simpa [applyOp, he] using hfit
    · intro p hp
      simp only [applyOp] at hp
      rw [he] at hp
      rcases List.mem_append.mp hp with hL | hR
      · exact hfit p hL
      · have hpeq : p = "" := by simpa using hR
        subst hpeq
        simp
  | peekPage => exact hfit
  | readPage =>
    by_cases hl : s.pages.length < 2
    · simpa [applyOp, readPage_short s hl] using hfit
    · intro p hp
      simp only [applyOp, readPage_long s hl] at hp
      exact hfit p (List.tail_subset s.pages hp)

theorem runOps_pages_fit (ops : List (Op Node)) :
    ∀ s : PagedDuplexStream Node, commitsFit s ops = true →
    (∀ p ∈ s.pages, p.length ≤ s.sizeLimit) →
    ∀ p ∈ (runOps s ops).state.pages, p.length ≤ s.sizeLimit := by
  induction ops with
  | nil =>
    intro s _ hfit
    simpa [runOps] using hfit
  | cons op ops ih =>
    intro s hc hfit
    have hok := applyOp_no_error s op (commitsFit_head s op ops hc)
    rw [runOps_cons_ok s op ops hok]
    have hrec := ih (applyOp s op).1 (commitsFit_tail s op ops hc)
      (by
        rw [sizeLimit_applyOp]
        exact applyOp_pages_fit s op (commitsFit_head s op ops hc) hfit)
    rw [sizeLimit_applyOp] at hrec
    exact hrec

/-! ### Run-level invariant: conservation of written text -/

theorem empty_append_str (s : String) : "" ++ s = s := rfl

/-- The text contributed by one operation. -/
def opText : Op Node → String
  | Op.writeString str => str
  | _ => ""

theorem writtenText_cons (op : Op Node) (ops : List (Op Node)) :
    writtenText (op :: ops) = opText op ++ writtenText ops := by
  cases op <;> rfl

/-- When `commit` throws, the state at the throw is the state at entry:
the throw precedes every mutation. -/
theorem commit_error_state (s : PagedDuplexStream Node) (n : Node)
    (h : (commit s n).2 ≠ none) : (commit s n).1 = s := by
  by_cases hov : isPageAndBufferOverSize s = true
  · by_cases herr :
        (currentPage s).length = 0 ∧ s.buffer.length > s.sizeLimit
    · unfold commit
      rw [if_pos hov, if_pos herr]
    · exfalso
      apply h
      unfold commit
      rw [if_pos hov, if_neg herr]
  · exfalso
    apply h
    unfold commit
    rw [if_neg hov]

theorem applyOp_total (s : PagedDuplexStream Node) (op : Op Node)
    (hok : (applyOp s op).2.2 = none) :
    concatAll ((applyOp s op).2.1).toList
      ++ (concatAll (applyOp s op).1.pages ++ (applyOp s op).1.buffer)
      = (concatAll s.pages ++ s.buffer) ++ opText op := by
  cases op with
  | writeString str =>
    show "" ++ (concatAll s.pages ++ (s.buffer ++ str))
        = (concatAll s.pages ++ s.buffer) ++ str
    rw [empty_append_str, String.append_assoc]
  | commit n =>
    have hok' : (commit s n).2 = none := by simpa [applyOp] using hok
    show "" ++ (concatAll (commit s n).1.pages ++ (commit s n).1.buffer)
        = (concatAll s.pages ++ s.buffer) ++ ""
    rw [empty_append_str, String.append_empty]
    exact commit_conserve s n hok'
  | ensureNewPage =>
    show "" ++ (concatAll (ensureNewPage s).pages ++ (ensureNewPage s).buffer)
        = (concatAll s.pages ++ s.buffer) ++ ""
    rw [empty_append_str, String.append_empty, buffer_ensureNewPage]
    rcases ensureNewPage_cases s with he | ⟨-, he⟩
    · rw [he]
    · rw [he, concatAll_concat, String.append_empty]
  | peekPage =>
    show "" ++ (concatAll s.pages ++ s.buffer)
        = (concatAll s.pages ++ s.buffer) ++ ""
    rw [empty_append_str, String.append_empty]
  | readPage =>
    by_cases hl : s.pages.length < 2
    · show concatAll ((readPage s).1).toList
          ++ (concatAll (readPage s).2.pages ++ (readPage s).2.buffer)
          = (concatAll s.pages ++ s.buffer) ++ ""
      rw [readPage_short s hl, String.append_empty]
      show "" ++ (concatAll s.pages ++ s.buffer) = concatAll s.pages ++ s.buffer
      rw [empty_append_str]
    · rcases pages_two s.pages hl with ⟨a, b, t, hps⟩
      show concatAll ((readPage s).1).toList
          ++ (concatAll (readPage s).2.pages ++ (readPage s).2.buffer)
          = (concatAll s.pages ++ s.buffer) ++ ""
      rw [readPage_long s hl, String.append_empty]
      show concatAll (s.pages.head?).toList
          ++ (concatAll s.pages.tail ++ s.buffer)
          = concatAll s.pages ++ s.buffer
      rw [hps]
      show concatAll [a] ++ (concatAll (b :: t) ++ s.buffer)
          = concatAll (a :: b :: t) ++ s.buffer
      show (a ++ "") ++ (concatAll (b :: t) ++ s.buffer)
          = (a ++ concatAll (b :: t)) ++ s.buffer
      rw [String.append_empty, String.append_assoc]

theorem runOps_total (ops : List (Op Node)) :
    ∀ s : PagedDuplexStream Node, commitsFit s ops = true →
    concatAll (runOps s ops).drained
      ++ (concatAll (runOps s ops).state.pages ++ (runOps s ops).state.buffer)
      = (concatAll s.pages ++ s.buffer) ++ writtenText ops := by
  induction ops with
  | nil =>
    intro s _
    show "" ++ (concatAll s.pages ++ s.buffer)
        = (concatAll s.pages ++ s.buffer) ++ ""
    rw [empty_append_str, String.append_empty]
  | cons op ops ih =>
    intro s hc
    have hok := applyOp_no_error s op (commitsFit_head s op ops hc)
    rw [runOps_cons_ok s op ops hok]
    show concatAll (((applyOp s op).2.1).toList
          ++ (runOps (applyOp s op).1 ops).drained)
        ++ (concatAll (runOps (applyOp s op).1 ops).state.pages
          ++ (runOps (applyOp s op).1 ops).state.buffer)
        = (concatAll s.pages ++ s.buffer) ++ writtenText (op :: ops)
    rw [concatAll_append, String.append_assoc,
      ih (applyOp s op).1 (commitsFit_tail s op ops hc),
      ← String.append_assoc, applyOp_total s op hok,
      String.append_assoc, writtenText_cons]

/-! ### Run-level invariant: closed pages are never empty -/

theorem dropLast_cons_cons (a b : String) (t : List String) :
    (a :: b :: t).dropLast = a :: (b :: t).dropLast := rfl

theorem runOps_cons_err (s : PagedDuplexStream Node) (op : Op Node)
    (ops : List (Op Node)) (e : CommitError)
    (hok : (applyOp s op).2.2 = some e) :
    runOps s (op :: ops) = ⟨s, [], true⟩ := by
  conv_lhs => rw [runOps]
  rw [hok]
  rfl

theorem applyOp_closed (s : PagedDuplexStream Node) (op : Op Node)
    (hne : ∀ p ∈ s.pages.dropLast, p ≠ "") :
    (∀ p ∈ (applyOp s op).1.pages.dropLast, p ≠ "") ∧
    (∀ p, (applyOp s op).2.1 = some p → p ≠ "") := by
  cases op with
  | writeString str =>
    refine ⟨hne, ?_⟩
    intro p hp
    simp [applyOp] at hp
  | commit n =>
    refine ⟨?_, ?_⟩
    · by_cases hok : (commit s n).2 = none
      · simpa [applyOp] using commit_closed s n hok hne
      · have hfr := commit_error_state s n hok
        simpa [applyOp, hfr] using hne
    · intro p hp
      simp [applyOp] at hp
  | ensureNewPage =>
    refine ⟨?_, ?_⟩
    · rcases ensureNewPage_cases s with he | ⟨hcur, he⟩
      · simpa [applyOp, he] using hne
      · intro p hp
        simp only [applyOp] at hp
        rw [he, List.dropLast_concat] at hp
        rw [pages_decomp s hcur] at hp
        rcases List.mem_append.mp hp with hL | hR
        · exact hne p hL
        · have hpeq : p = currentPage s := by simpa using hR
          subst hpeq
          intro hemp
          apply hcur
          rw [hemp]
          rfl
    · intro p hp
      simp [applyOp] at hp
  | peekPage =>
    refine ⟨hne, ?_⟩
    intro p hp
    simp [applyOp] at hp
  | readPage =>
    by_cases hl : s.pages.length < 2
    · refine ⟨?_, ?_⟩
      · simpa [applyOp, readPage_short s hl] using hne
      · intro p hp
        simp [applyOp, readPage_short s hl] at hp
    · rcases pages_two s.pages hl with ⟨a, b, t, hps⟩
      refine ⟨?_, ?_⟩
      · intro p hp
        simp only [applyOp, readPage_long s hl] at hp
        apply hne
        rw [hps] at hp ⊢
        rw [dropLast_cons_cons]
        exact List.mem_cons_of_mem a hp
      · intro p hp
        simp only [applyOp, readPage_long s hl] at hp
        rw [hps] at hp
        simp only [List.head?] at hp
        have hpeq : a = p := by simpa using hp
        subst hpeq
        apply hne
        rw [hps, dropLast_cons_cons]
        exact List.mem_cons_self a _

theorem runOps_closed (ops : List (Op Node)) :
    ∀ s : PagedDuplexStream Node,
    (∀ p ∈ s.pages.dropLast, p ≠ "") →
    (∀ p ∈ (runOps s ops).state.pages.dropLast, p ≠ "") ∧
    (∀ p ∈ (runOps s ops).drained, p ≠ "") := by
  induction ops with
  | nil =>
    intro s hne
    refine ⟨by simpa [runOps] using hne, ?_⟩
    intro p hp
    simp [runOps] at hp
  | cons op ops ih =>
    intro s hne
    cases he : (applyOp s op).2.2 with
    | some e =>
      rw [runOps_cons_err s op ops e he]
      refine ⟨hne, ?_⟩
      intro p hp
      simp at hp
    | none =>
      rw [runOps_cons_ok s op ops he]
      have hstep := applyOp_closed s op hne
      have hrec := ih (applyOp s op).1 hstep.1
      refine ⟨hrec.1, ?_⟩
      intro p hp
      rcases List.mem_append.mp hp with hL | hR
      · cases ho : (applyOp s op).2.1 with
        | none =>
          rw [ho] at hL
          simp at hL
        | some q =>
          rw [ho] at hL
          have hpeq : p = q := by simpa using hL
          subst hpeq
          exact hstep.2 p ho
      · exact hrec.2 p hR

/-- Closed pages being non-empty rules out two adjacent empty pages. -/
theorem noTwo_of_closed :
    ∀ l : List String, (∀ p ∈ l.dropLast, p ≠ "") →
      noTwoConsecutiveEmpty l = true
  | [], _ => rfl
  | [_], _ => rfl
  | a :: b :: rest, h => by
    have ha : a ≠ "" := by
      apply h
      rw [dropLast_cons_cons]
      exact List.mem_cons_self a _
    have hrec := noTwo_of_closed (b :: rest) (by
      intro p hp
      apply h
      rw [dropLast_cons_cons]
      exact List.mem_cons_of_mem a hp)
    unfold noTwoConsecutiveEmpty
    rw [hrec]
    simp [ha]

/-- `peekPage` only ever returns a closed page, hence never an empty
one. -/
theorem peekPage_closed (s : PagedDuplexStream Node)
    (hne : ∀ p ∈ s.pages.dropLast, p ≠ "") :
    ∀ p, peekPage s = some p → p ≠ "" := by
  intro p hp
  unfold peekPage at hp
  split at hp
  · simp at hp
  · rename_i hl
    rcases pages_two s.pages hl with ⟨a, b, t, hps⟩
    rw [hps] at hp
    have hpeq : a = p := by simpa using hp
    subst hpeq
    apply hne
    rw [hps, dropLast_cons_cons]
    exact List.mem_cons_self a _

/-! ### The claims -/

/-- C1: for every buffer state, if `commit(node)` raises the
OversizeCommit error then the state is unchanged — the accumulator, the
page sequence (number, order and contents of pages) and the
last-committed-node reference are exactly what they were before the
call. -/
theorem C1_commit_error_leaves_state_unchanged
    (s : PagedDuplexStream Node) (n : Node) (e : CommitError)
    (h : (commit s n).2 = some e) : (commit s n).1 = s :=
  commit_error_state s n (by rw [h]; simp)

/-- Witness for C1, the spec's §8 failure example: `sizeLimit = 5`,
accumulator `"abcdef"`, page list `[""]`. -/
theorem C1_witness :
    (commit (⟨5, "abcdef", [""], none⟩ : PagedDuplexStream Nat) 0).1
      = ⟨5, "abcdef", [""], none⟩ :=
  C1_commit_error_leaves_state_unchanged
    (⟨5, "abcdef", [""], none⟩ : PagedDuplexStream Nat) 0
    CommitError.oversizeCommit (by decide)

/-- C2 counterexample: from a fresh buffer with `sizeLimit = 5`, the
sequence write `"a"`, commit, write `"abcdef"` reaches the state with
current page `"a"` and accumulator `"abcdef"`; committing there
succeeds (no error) yet leaves a current page of length 6 > 5. -/
theorem C2_counterexample :
    (runOps (mkPagedDuplexStream Nat 5)
        [Op.writeString "a", Op.commit 0, Op.writeString "abcdef"]).state
      = ⟨5, "abcdef", ["a"], some 0⟩
    ∧ (commit (⟨5, "abcdef", ["a"], some 0⟩ : PagedDuplexStream Nat) 1).2
      = none
    ∧ 5 < (currentPage
        (commit (⟨5, "abcdef", ["a"], some 0⟩ : PagedDuplexStream Nat) 1).1
          ).length := by
  decide

/-- C2 (amended): whenever the accumulator's length at the call is at
most `sizeLimit` and `commit(node)` returns successfully, the current
page's length afterwards is at most `sizeLimit`.  (Without the bound on
the accumulator, a successful rollover commit can leave a current page
longer than `sizeLimit`.) -/
theorem C2_amended_commit_success_page_bounded
    (s : PagedDuplexStream Node) (n : Node)
    (hbuf : s.buffer.length ≤ s.sizeLimit)
    (hok : (commit s n).2 = none) :
    (currentPage (commit s n).1).length ≤ s.sizeLimit := by
  rcases (commit_success_shape s n hok).2.2 with ⟨hle, hpg⟩ | ⟨-, hpg⟩
  · rw [currentPage, hpg, List.getLastD_concat, String.length_append]
    exact hle
  · rw [currentPage, hpg, List.getLastD_concat]
    exact hbuf

/-- Witness for the amended C2. -/
theorem C2_witness :
    (currentPage
      (commit (⟨10, "abcde", [""], none⟩ : PagedDuplexStream Nat) 0).1
        ).length ≤ 10 :=
  C2_amended_commit_success_page_bounded
    (⟨10, "abcde", [""], none⟩ : PagedDuplexStream Nat) 0
    (by decide) (by decide)

/-- C3: `commit(node)` raises the OversizeCommit error if and only if,
at the moment of the call, the current page is empty and the
accumulator's length alone strictly exceeds `sizeLimit`; and no
operation other than `commit` can ever fail — among the mutating and
draining operations, an error can arise only from a `commit` step (the
remaining queries `getPosition`, `isPageAndBufferOverSize`,
`getLastCommittedNode` and `peekPage` are embedded as total
functions). -/
theorem C3_commit_error_characterization :
    (∀ (s : PagedDuplexStream Node) (n : Node),
      (commit s n).2 = some CommitError.oversizeCommit ↔
        ((currentPage s).length = 0 ∧ s.buffer.length > s.sizeLimit)) ∧
    (∀ (s : PagedDuplexStream Node) (op : Op Node),
      (applyOp s op).2.2 ≠ none → ∃ n, op = Op.commit n) := by
  constructor
  · intro s n
    constructor
    · intro h
      by_cases hov : isPageAndBufferOverSize s = true
      · by_cases herr :
            (currentPage s).length = 0 ∧ s.buffer.length > s.sizeLimit
        · exact herr
        · exfalso
          unfold commit at h
          rw [if_pos hov, if_neg herr] at h
          simp at h
      · exfalso
        unfold commit at h
        rw [if_neg hov] at h
        simp at h
    · rintro ⟨h0, hbuf⟩
      have hov : isPageAndBufferOverSize s = true := by
        unfold isPageAndBufferOverSize
        rw [h0]
        simp only [decide_eq_true_eq]
        omega
      unfold commit
      rw [if_pos hov, if_pos ⟨h0, hbuf⟩]
  · intro s op h
    cases op with
    | writeString str => exact absurd rfl h
    | commit n => exact ⟨n, rfl⟩
    | ensureNewPage => exact absurd rfl h
    | peekPage => exact absurd rfl h
    | readPage => exact absurd rfl h

/-- Witness for C3: the error fires exactly on the spec's §8 failure
example, and the only erroring operation is a commit. -/
theorem C3_witness :
    (commit (⟨5, "abcdef", [""], none⟩ : PagedDuplexStream Nat) 0).2
      = some CommitError.oversizeCommit
    ∧ ∃ n, Op.commit (0 : Nat) = Op.commit n :=
  ⟨((@C3_commit_error_characterization Nat).1
      (⟨5, "abcdef", [""], none⟩ : PagedDuplexStream Nat) 0).mpr (by decide),
   (@C3_commit_error_characterization Nat).2
      (⟨5, "abcdef", [""], none⟩ : PagedDuplexStream Nat)
      (Op.commit 0) (by decide)⟩

/-- C4: for every sequence of operations from a freshly constructed
buffer in which, at each commit, the accumulator's length is at most
`sizeLimit`, every page of the resulting page sequence has length at
most `sizeLimit`.  (Quantifying over all such sequences covers the
state after every prefix, i.e. after every operation.) -/
theorem C4_all_pages_within_limit (sizeLimit : Nat) (ops : List (Op Node))
    (hc : commitsFit (mkPagedDuplexStream Node sizeLimit) ops = true) :
    ∀ p ∈ (runOps (mkPagedDuplexStream Node sizeLimit) ops).state.pages,
      p.length ≤ sizeLimit := by
  refine runOps_pages_fit ops (mkPagedDuplexStream Node sizeLimit) hc ?_
  intro p hp
  have hpeq : p = "" := by simpa [mkPagedDuplexStream] using hp
  subst hpeq
  simp

/-- Witness for C4, on the spec's §8 example run. -/
theorem C4_witness : ("abcdefghij" : String).length ≤ 10 :=
  @C4_all_pages_within_limit Nat 10
    [Op.writeString "abcde", Op.commit 0, Op.writeString "fghij",
     Op.commit 1, Op.writeString "k", Op.commit 2]
    (by decide) "abcdefghij" (by decide)

/-- C5 counterexample: the single-operation sequence write `"a"` (no
commit at all, so every commit trivially fits) leaves `"a"` in the
accumulator; the concatenation of drained pages and the page sequence
is `""`, not the written text `"a"`. -/
theorem C5_counterexample :
    commitsFit (mkPagedDuplexStream Nat 5) [Op.writeString "a"] = true
    ∧ concatAll ((runOps (mkPagedDuplexStream Nat 5)
          [Op.writeString "a"]).drained
        ++ (runOps (mkPagedDuplexStream Nat 5)
          [Op.writeString "a"]).state.pages)
      ≠ writtenText ([Op.writeString "a"] : List (Op Nat)) := by
  decide

/-- C5 (amended): for every sequence of operations from a freshly
constructed buffer in which no single commit's accumulated content
exceeds `sizeLimit`, the concatenation of the pages drained via
`readPage`, then the pages still in the sequence (including the final
current page), then the still-uncommitted accumulator, equals the
concatenation of all strings ever passed to `writeString` — no
characters lost, duplicated, or reordered.  (The accumulator term is
forced: text written but never committed is in no page.) -/
theorem C5_amended_conservation (sizeLimit : Nat) (ops : List (Op Node))
    (hc : commitsFit (mkPagedDuplexStream Node sizeLimit) ops = true) :
    concatAll ((runOps (mkPagedDuplexStream Node sizeLimit) ops).drained
        ++ (runOps (mkPagedDuplexStream Node sizeLimit) ops).state.pages)
      ++ (runOps (mkPagedDuplexStream Node sizeLimit) ops).state.buffer
      = writtenText ops := by
  rw [concatAll_append, String.append_assoc,
    runOps_total ops (mkPagedDuplexStream Node sizeLimit) hc]
  rfl

/-- Witness for the amended C5, on the spec's §8 example extended with
a draining `readPage`. -/
theorem C5_witness :
    concatAll ((runOps (mkPagedDuplexStream Nat 10)
          [Op.writeString "abcde", Op.commit 0, Op.writeString "fghij",
           Op.commit 1, Op.writeString "k", Op.commit 2,
           Op.readPage]).drained
        ++ (runOps (mkPagedDuplexStream Nat 10)
          [Op.writeString "abcde", Op.commit 0, Op.writeString "fghij",
           Op.commit 1, Op.writeString "k", Op.commit 2,
           Op.readPage]).state.pages)
      ++ (runOps (mkPagedDuplexStream Nat 10)
          [Op.writeString "abcde", Op.commit 0, Op.writeString "fghij",
           Op.commit 1, Op.writeString "k", Op.commit 2,
           Op.readPage]).state.buffer
      = writtenText
          ([Op.writeString "abcde", Op.commit 0, Op.writeString "fghij",
            Op.commit 1, Op.writeString "k", Op.commit 2,
            Op.readPage] : List (Op Nat)) :=
  C5_amended_conservation 10
    [Op.writeString "abcde", Op.commit 0, Op.writeString "fghij",
     Op.commit 1, Op.writeString "k", Op.commit 2, Op.readPage]
    (by decide)

/-- C6: when at least two pages exist, `readPage` returns the first
(oldest ready) page and removes exactly it, the remaining pages being
the original tail in order, with the accumulator and last-committed
node untouched; with fewer than two pages it returns the no-page-ready
signal and mutates nothing. -/
theorem C6_readPage_fifo_dequeue (s : PagedDuplexStream Node) :
    (2 ≤ s.pages.length →
      (readPage s).1 = s.pages.head? ∧
      (readPage s).2.pages = s.pages.tail ∧
      (readPage s).2.buffer = s.buffer ∧
      (readPage s).2.lastCommittedNode = s.lastCommittedNode) ∧
    (s.pages.length < 2 → readPage s = (none, s)) := by
  constructor
  · intro h2
    have hl : ¬s.pages.length < 2 := by omega
    rw [readPage_long s hl]
    exact ⟨rfl, rfl, rfl, rfl⟩
  · exact readPage_short s

/-- Witness for C6, on the state reached in the spec's §8 example. -/
theorem C6_witness :
    (readPage (⟨10, "", ["abcdefghij", "k"], some 2⟩ :
        PagedDuplexStream Nat)).1
      = (⟨10, "", ["abcdefghij", "k"], some 2⟩ :
          PagedDuplexStream Nat).pages.head?
    ∧ (readPage (⟨10, "", ["abcdefghij", "k"], some 2⟩ :
        PagedDuplexStream Nat)).2.pages
      = (⟨10, "", ["abcdefghij", "k"], some 2⟩ :
          PagedDuplexStream Nat).pages.tail
    ∧ (readPage (⟨10, "", ["abcdefghij", "k"], some 2⟩ :
        PagedDuplexStream Nat)).2.buffer
      = (⟨10, "", ["abcdefghij", "k"], some 2⟩ :
          PagedDuplexStream Nat).buffer
    ∧ (readPage (⟨10, "", ["abcdefghij", "k"], some 2⟩ :
        PagedDuplexStream Nat)).2.lastCommittedNode
      = (⟨10, "", ["abcdefghij", "k"], some 2⟩ :
          PagedDuplexStream Nat).lastCommittedNode :=
  (C6_readPage_fifo_dequeue
    (⟨10, "", ["abcdefghij", "k"], some 2⟩ : PagedDuplexStream Nat)).1
    (by decide)

/-- C7 counterexample: from a fresh buffer with `sizeLimit = 5`, the
sequence write `"a"`, commit, `ensureNewPage` ends with a commit having
occurred (`lastCommittedNode = some 0`) and the page sequence
`["a", ""]`: the empty page is the second page and a commit has already
occurred, contradicting both "an empty page can only ever be the very
first page before any commit" and "after any commit has occurred, no
page in the sequence is empty". -/
theorem C7_counterexample :
    (runOps (mkPagedDuplexStream Nat 5)
        [Op.writeString "a", Op.commit 0, Op.ensureNewPage]).state.pages
      = ["a", ""]
    ∧ (runOps (mkPagedDuplexStream Nat 5)
        [Op.writeString "a", Op.commit 0,
         Op.ensureNewPage]).state.lastCommittedNode
      = some 0 := by
  decide

/-- C7 (amended): for every sequence of operations from a freshly
constructed buffer, no two consecutive pages are both empty, and an
empty page can only ever be the current (last) page: every closed
(non-last) page is non-empty.  (The public `ensureNewPage` called after
a commit pushes an empty current page, so emptiness is not limited to
the very first page before any commit.) -/
theorem C7_amended_empty_only_current (sizeLimit : Nat)
    (ops : List (Op Node)) :
    noTwoConsecutiveEmpty
        (runOps (mkPagedDuplexStream Node sizeLimit) ops).state.pages
      = true
    ∧ ∀ p ∈ (runOps (mkPagedDuplexStream Node sizeLimit)
        ops).state.pages.dropLast, p ≠ "" := by
  have h := runOps_closed ops (mkPagedDuplexStream Node sizeLimit)
    (by intro p hp; simp [mkPagedDuplexStream] at hp)
  exact ⟨noTwo_of_closed _ h.1, h.1⟩

/-- Witness for the amended C7. -/
theorem C7_witness : ("a" : String) ≠ "" :=
  (@C7_amended_empty_only_current Nat 1
    [Op.writeString "a", Op.commit 0, Op.writeString "b", Op.commit 1]).2
    "a" (by decide)

/-- C8: for every sequence of operations from a freshly constructed
buffer, `peekPage` and `readPage` never return the empty string:
whenever they return a page's content rather than the absent signal,
that content is non-empty (the second conjunct covers every page
`readPage` returned during the run). -/
theorem C8_peek_read_never_empty (sizeLimit : Nat)
    (ops : List (Op Node)) :
    (∀ p, peekPage (runOps (mkPagedDuplexStream Node sizeLimit)
        ops).state = some p → p ≠ "")
    ∧ (∀ p ∈ (runOps (mkPagedDuplexStream Node sizeLimit) ops).drained,
        p ≠ "") := by
  have h := runOps_closed ops (mkPagedDuplexStream Node sizeLimit)
    (by intro p hp; simp [mkPagedDuplexStream] at hp)
  exact ⟨peekPage_closed _ h.1, h.2⟩

/-- Witness for C8: the page drained by the final `readPage` is
non-empty. -/
theorem C8_witness : ("ab" : String) ≠ "" :=
  (@C8_peek_read_never_empty Nat 2
    [Op.writeString "ab", Op.commit 0, Op.writeString "cd", Op.commit 1,
     Op.readPage]).2 "ab" (by decide)

/-- C9: in every buffer state (page sequence non-empty, as in every
reachable state) whose current-page length plus accumulator length is
exactly `sizeLimit`, `commit` does not roll over:
`isPageAndBufferOverSize` is `false`, the commit succeeds, the
accumulator is appended to the existing current page, and the number of
pages is unchanged. -/
theorem C9_exact_limit_no_rollover (s : PagedDuplexStream Node) (n : Node)
    (hne : s.pages ≠ [])
    (hexact : (currentPage s).length + s.buffer.length = s.sizeLimit) :
    isPageAndBufferOverSize s = false
    ∧ (commit s n).2 = none
    ∧ (commit s n).1.pages
      = s.pages.dropLast ++ [currentPage s ++ s.buffer]
    ∧ (commit s n).1.pages.length = s.pages.length := by
  have hov : isPageAndBufferOverSize s = false := by
    unfold isPageAndBufferOverSize
    rw [decide_eq_false_iff_not]
    omega
  have hnov : ¬isPageAndBufferOverSize s = true := by
    rw [hov]
    simp
  have hc : commit s n = (commitAppend s n, none) := by
    unfold commit
    rw [if_neg hnov]
  refine ⟨hov, by rw [hc], by rw [hc]; exact pages_commitAppend s n, ?_⟩
  rw [hc]
  show (commitAppend s n).pages.length = s.pages.length
  rw [pages_commitAppend, List.length_append, List.length_dropLast]
  have hpos := List.length_pos.mpr hne
  simp only [List.length_cons, List.length_nil]
  omega

/-- Witness for C9: the spec's §8 boundary step (`"abcde"` on the page,
`"fghij"` pending, limit 10). -/
theorem C9_witness :
    isPageAndBufferOverSize (⟨10, "fghij", ["abcde"], some 0⟩ :
        PagedDuplexStream Nat) = false
    ∧ (commit (⟨10, "fghij", ["abcde"], some 0⟩ :
        PagedDuplexStream Nat) 1).2 = none
    ∧ (commit (⟨10, "fghij", ["abcde"], some 0⟩ :
        PagedDuplexStream Nat) 1).1.pages
      = (⟨10, "fghij", ["abcde"], some 0⟩ :
          PagedDuplexStream Nat).pages.dropLast
        ++ [currentPage (⟨10, "fghij", ["abcde"], some 0⟩ :
              PagedDuplexStream Nat)
            ++ (⟨10, "fghij", ["abcde"], some 0⟩ :
                PagedDuplexStream Nat).buffer]
    ∧ (commit (⟨10, "fghij", ["abcde"], some 0⟩ :
        PagedDuplexStream Nat) 1).1.pages.length
      = (⟨10, "fghij", ["abcde"], some 0⟩ :
          PagedDuplexStream Nat).pages.length :=
  C9_exact_limit_no_rollover
    (⟨10, "fghij", ["abcde"], some 0⟩ : PagedDuplexStream Nat) 1
    (by decide) (by decide)

/-- C10: in every buffer state (page sequence non-empty, as in every
reachable state) whose current page is within the limit and whose
accumulator is empty, `commit(node)` succeeds, leaves the page sequence
and the accumulator unchanged, and sets the last-committed node to
`node`: a commit with nothing written since the last commit is a pure
node-tagging operation. -/
theorem C10_empty_commit_is_node_tag (s : PagedDuplexStream Node)
    (n : Node) (hne : s.pages ≠ [])
    (hcur : (currentPage s).length ≤ s.sizeLimit)
    (hbuf : s.buffer = "") :
    (commit s n).2 = none
    ∧ (commit s n).1.pages = s.pages
    ∧ (commit s n).1.buffer = s.buffer
    ∧ (commit s n).1.lastCommittedNode = some n := by
  have hnov : ¬isPageAndBufferOverSize s = true := by
    unfold isPageAndBufferOverSize
    simp only [decide_eq_true_eq, Nat.not_lt, gt_iff_lt]
    rw [hbuf]
    simpa using hcur
  have hc : commit s n = (commitAppend s n, none) := by
    unfold commit
    rw [if_neg hnov]
  refine ⟨by rw [hc], ?_, by rw [hc, hbuf]; rfl, by rw [hc]; rfl⟩
  rw [hc]
  show (commitAppend s n).pages = s.pages
  rw [pages_commitAppend, hbuf, String.append_empty]
  rcases List.eq_nil_or_concat s.pages with h0 | ⟨l, x, hx⟩
  · exact absurd h0 hne
  · rw [List.concat_eq_append] at hx
    rw [currentPage_concat l x s hx, hx, List.dropLast_concat]

/-- Witness for C10. -/
theorem C10_witness :
    (commit (⟨5, "", ["abc"], none⟩ : PagedDuplexStream Nat) 7).2 = none
    ∧ (commit (⟨5, "", ["abc"], none⟩ :
        PagedDuplexStream Nat) 7).1.pages
      = (⟨5, "", ["abc"], none⟩ : PagedDuplexStream Nat).pages
    ∧ (commit (⟨5, "", ["abc"], none⟩ :
        PagedDuplexStream Nat) 7).1.buffer
      = (⟨5, "", ["abc"], none⟩ : PagedDuplexStream Nat).buffer
    ∧ (commit (⟨5, "", ["abc"], none⟩ :
        PagedDuplexStream Nat) 7).1.lastCommittedNode = some 7 :=
  C10_empty_commit_is_node_tag
    (⟨5, "", ["abc"], none⟩ : PagedDuplexStream Nat) 7
    (by decide) (by decide) (by decide)

end PagedDuplex
